import Mathlib

/-!
Shallow embedding of `src/lib.rs` (crate `lodil`): a thread-safe key/value
store with optional lazy per-entry expiration.

Modelling choices:
* `SystemTime` instants and `Duration` values are `Nat`; the Rust expression
  `SystemTime::now() + duration` becomes `now + duration`, and the comparison
  `expiration < now` is `Nat` order.  `SystemTime::now()` is passed to each
  operation as an explicit `now : Nat` argument.
* The `HashMap<K, (V, Option<SystemTime>)>` guarded by the `Arc<RwLock<..>>`
  is an association list holding at most one binding per key (`WF`); `hmGet`,
  `hmInsert` and `hmRemove` embed the `HashMap::get(..).cloned()`,
  `HashMap::insert` and `HashMap::remove` calls the source makes.
* Each lock acquisition can fail because of poisoning.  Every acquisition
  point receives a `Bool` telling whether that particular acquisition finds
  the lock poisoned (in `get`, the `read()` acquisition and the `write()`
  acquisition inside the lazy-eviction call to `remove` get independent
  flags, since a racing thread may poison the lock between the two).
* Every operation returns the Rust function result together with the mapping
  contents after the call.
-/

/-- The error enum `KeyValueStoreError` from the source: exactly the two
lock-poisoning failures. -/
inductive KeyValueStoreError where
  | PoisonedReadLock
  | PoisonedWriteLock
deriving DecidableEq

/-- The mapping guarded by the store lock,
`HashMap<K, (V, Option<SystemTime>)>`, modelled as an association list of
`(key, (value, expires_at))` bindings. -/
abbrev KeyValueStore (K V : Type) : Type := List (K × (V × Option Nat))

variable {K V : Type} [DecidableEq K]

/-- `HashMap::get(key).cloned()`: the entry currently bound to `key`. -/
def hmGet : KeyValueStore K V → K → Option (V × Option Nat)
  | [], _ => none
  | (k0, e) :: rest, k => if k0 = k then some e else hmGet rest k

/-- `HashMap::insert(key, entry)`: returns the previous entry bound to `key`
(if any) together with the updated mapping. -/
def hmInsert : KeyValueStore K V → K → V × Option Nat →
    Option (V × Option Nat) × KeyValueStore K V
  | [], k, e => (none, [(k, e)])
  | (k0, e0) :: rest, k, e =>
    if k0 = k then
      (some e0, (k, e) :: rest)
    else
      let r := hmInsert rest k e
      (r.1, (k0, e0) :: r.2)

/-- `HashMap::remove(key)`: returns the removed entry (if any) together with
the updated mapping. -/
def hmRemove : KeyValueStore K V → K →
    Option (V × Option Nat) × KeyValueStore K V
  | [], _ => (none, [])
  | (k0, e0) :: rest, k =>
    if k0 = k then
      (some e0, rest)
    else
      let r := hmRemove rest k
      (r.1, (k0, e0) :: r.2)

/-- The `HashMap` representation invariant: at most one binding per key. -/
def WF (m : KeyValueStore K V) : Prop := (m.map Prod.fst).Nodup

namespace KeyValueStore

/-- `KeyValueStore::insert`.  `writePoisoned` tells whether the single
`write()` acquisition finds the lock poisoned; `now` is `SystemTime::now()`
at the call.  The absolute expiration is computed as `now + duration` before
the lock is taken, exactly as in the source. -/
def insert (writePoisoned : Bool) (now : Nat) (m : KeyValueStore K V)
    (key : K) (value : V) (expiration : Option Nat) :
    Except KeyValueStoreError (Option V × KeyValueStore K V) :=
  let expiration := expiration.map (fun duration => now + duration)
  if writePoisoned then
    Except.error KeyValueStoreError.PoisonedWriteLock
  else
    let r := hmInsert m key (value, expiration)
    Except.ok (r.1.map (fun p => p.1), r.2)

/-- `KeyValueStore::remove`.  `writePoisoned` tells whether the single
`write()` acquisition finds the lock poisoned. -/
def remove (writePoisoned : Bool) (m : KeyValueStore K V) (key : K) :
    Except KeyValueStoreError (Option V × KeyValueStore K V) :=
  if writePoisoned then
    Except.error KeyValueStoreError.PoisonedWriteLock
  else
    let r := hmRemove m key
    Except.ok (r.1.map (fun p => p.1), r.2)

/-- `KeyValueStore::get`.  `readPoisoned` is the flag for the `read()`
acquisition; `writePoisoned` is the flag for the `write()` acquisition inside
the lazy-eviction call to `remove`; `now` is `SystemTime::now()` taken at the
top of the call.  On an expired entry the result of `remove` has its value
component discarded (`.map(|_| None)` in the source) while its state change
is kept. -/
def get (readPoisoned writePoisoned : Bool) (now : Nat)
    (m : KeyValueStore K V) (key : K) :
    Except KeyValueStoreError (Option V × KeyValueStore K V) :=
  if readPoisoned then
    Except.error KeyValueStoreError.PoisonedReadLock
  else
    match hmGet m key with
    | some (value, some expiration) =>
      if expiration < now then
        Except.map (fun p => (none, p.2)) (remove writePoisoned m key)
      else
        Except.ok (some value, m)
    | result => Except.ok (result.map (fun p => p.1), m)

end KeyValueStore

theorem hmInsert_fst (m : KeyValueStore K V) (k : K) (e : V × Option Nat) :
    (hmInsert m k e).1 = hmGet m k := by
  induction m with
  | nil => rfl
  | cons p rest ih =>
    obtain ⟨k0, e0⟩ := p
    by_cases h : k0 = k
    · simp [hmInsert, hmGet, h]
    · simp [hmInsert, hmGet, h, ih]

theorem hmRemove_fst (m : KeyValueStore K V) (k : K) :
    (hmRemove m k).1 = hmGet m k := by
  induction m with
  | nil => rfl
  | cons p rest ih =>
    obtain ⟨k0, e0⟩ := p
    by_cases h : k0 = k
    · simp [hmRemove, hmGet, h]
    · simp [hmRemove, hmGet, h, ih]

theorem hmGet_hmInsert_self (m : KeyValueStore K V) (k : K)
    (e : V × Option Nat) : hmGet (hmInsert m k e).2 k = some e := by
  induction m with
  | nil => simp [hmInsert, hmGet]
  | cons p rest ih =>
    obtain ⟨k0, e0⟩ := p
    by_cases h : k0 = k
    · simp [hmInsert, hmGet, h]
    · simp [hmInsert, hmGet, h, ih]

theorem hmGet_hmInsert_ne (m : KeyValueStore K V) (k k1 : K)
    (e : V × Option Nat) (h : k1 ≠ k) :
    hmGet (hmInsert m k e).2 k1 = hmGet m k1 := by
  have hsym : k ≠ k1 := fun h0 => h h0.symm
  induction m with
  | nil => simp [hmInsert, hmGet, hsym]
  | cons p rest ih =>
    obtain ⟨k0, e0⟩ := p
    by_cases h0 : k0 = k
    · subst h0
      simp [hmInsert, hmGet, hsym]
    · simp [hmInsert, hmGet, h0, ih]

theorem hmGet_hmRemove_ne (m : KeyValueStore K V) (k k1 : K) (h : k1 ≠ k) :
    hmGet (hmRemove m k).2 k1 = hmGet m k1 := by
  have hsym : k ≠ k1 := fun h0 => h h0.symm
  induction m with
  | nil => simp [hmRemove, hmGet]
  | cons p rest ih =>
    obtain ⟨k0, e0⟩ := p
    by_cases h0 : k0 = k
    · subst h0
      simp [hmRemove, hmGet, hsym]
    · simp [hmRemove, hmGet, h0, ih]

theorem hmGet_eq_none_of_not_mem (m : KeyValueStore K V) (k : K)
    (h : k ∉ m.map Prod.fst) : hmGet m k = none := by
  induction m with
  | nil => rfl
  | cons p rest ih =>
    obtain ⟨k0, e0⟩ := p
    simp only [List.map_cons, List.mem_cons, not_or] at h
    have h0 : k0 ≠ k := fun h1 => h.1 (h1.symm)
    simp [hmGet, h0, ih h.2]

theorem hmGet_hmRemove_self (m : KeyValueStore K V) (k : K) (h : WF m) :
    hmGet (hmRemove m k).2 k = none := by
  induction m with
  | nil => rfl
  | cons p rest ih =>
    obtain ⟨k0, e0⟩ := p
    simp only [WF, List.map_cons, List.nodup_cons] at h
    by_cases h0 : k0 = k
    · subst h0
      simp only [hmRemove, if_pos rfl]
      exact hmGet_eq_none_of_not_mem rest k0 h.1
    · simp [hmRemove, hmGet, h0, ih h.2]

theorem keys_hmInsert_cons_eq (rest : KeyValueStore K V) (k0 : K)
    (e0 e : V × Option Nat) :
    (hmInsert ((k0, e0) :: rest) k0 e).2.map Prod.fst
      = k0 :: rest.map Prod.fst := by
  simp [hmInsert]

theorem keys_hmInsert_cons_ne (rest : KeyValueStore K V) (k0 k : K)
    (e0 e : V × Option Nat) (h0 : k0 ≠ k) :
    (hmInsert ((k0, e0) :: rest) k e).2.map Prod.fst
      = k0 :: (hmInsert rest k e).2.map Prod.fst := by
  simp [hmInsert, h0]

theorem mem_keys_hmInsert (m : KeyValueStore K V) (k x : K)
    (e : V × Option Nat) (hx : x ∈ (hmInsert m k e).2.map Prod.fst) :
    x ∈ m.map Prod.fst ∨ x = k := by
  induction m with
  | nil =>
    refine Or.inr ?_
    have h1 : (hmInsert ([] : KeyValueStore K V) k e).2.map Prod.fst = [k] :=
      rfl
    rw [h1, List.mem_singleton] at hx
    exact hx
  | cons p rest ih =>
    obtain ⟨k0, e0⟩ := p
    by_cases h0 : k0 = k
    · subst h0
      rw [keys_hmInsert_cons_eq] at hx
      rcases List.mem_cons.mp hx with h1 | h1
      · exact Or.inr h1
      · exact Or.inl (List.mem_cons.mpr (Or.inr h1))
    · rw [keys_hmInsert_cons_ne rest k0 k e0 e h0] at hx
      rcases List.mem_cons.mp hx with h1 | h1
      · exact Or.inl (List.mem_cons.mpr (Or.inl h1))
      · rcases ih h1 with h2 | h2
        · exact Or.inl (List.mem_cons.mpr (Or.inr h2))
        · exact Or.inr h2

theorem WF_hmInsert (m : KeyValueStore K V) (k : K) (e : V × Option Nat)
    (h : WF m) : WF (hmInsert m k e).2 := by
  induction m with
  | nil => simp [WF, hmInsert]
  | cons p rest ih =>
    obtain ⟨k0, e0⟩ := p
    rw [WF, List.map_cons, List.nodup_cons] at h
    by_cases h0 : k0 = k
    · subst h0
      rw [WF, keys_hmInsert_cons_eq, List.nodup_cons]
      exact h
    · rw [WF, keys_hmInsert_cons_ne rest k0 k e0 e h0, List.nodup_cons]
      refine ⟨fun hmem => ?_, ih h.2⟩
      rcases mem_keys_hmInsert rest k k0 e hmem with h1 | h1
      · exact h.1 h1
      · exact h0 h1

namespace KeyValueStore

theorem insert_ok (now : Nat) (m : KeyValueStore K V) (key : K) (value : V)
    (exp : Option Nat) :
    insert false now m key value exp
      = Except.ok ((hmGet m key).map Prod.fst,
          (hmInsert m key (value, exp.map (fun d => now + d))).2) := by
  rw [insert]
  simp [hmInsert_fst]

theorem insert_err (now : Nat) (m : KeyValueStore K V) (key : K) (value : V)
    (exp : Option Nat) :
    insert true now m key value exp
      = Except.error KeyValueStoreError.PoisonedWriteLock := rfl

theorem remove_ok (m : KeyValueStore K V) (key : K) :
    remove false m key
      = Except.ok ((hmGet m key).map Prod.fst, (hmRemove m key).2) := by
  rw [remove]
  simp [hmRemove_fst]

theorem remove_err (m : KeyValueStore K V) (key : K) :
    remove true m key = Except.error KeyValueStoreError.PoisonedWriteLock :=
  rfl

theorem get_read_err (wp : Bool) (now : Nat) (m : KeyValueStore K V)
    (key : K) :
    get true wp now m key = Except.error KeyValueStoreError.PoisonedReadLock :=
  rfl

theorem get_absent (wp : Bool) (now : Nat) (m : KeyValueStore K V) (key : K)
    (h : hmGet m key = none) : get false wp now m key = Except.ok (none, m) := by
  rw [get]
  simp [h]

theorem get_noexpiry (wp : Bool) (now : Nat) (m : KeyValueStore K V) (key : K)
    (v : V) (h : hmGet m key = some (v, none)) :
    get false wp now m key = Except.ok (some v, m) := by
  rw [get]
  simp [h]

theorem get_valid (wp : Bool) (now : Nat) (m : KeyValueStore K V) (key : K)
    (v : V) (t : Nat) (h : hmGet m key = some (v, some t)) (ht : ¬ t < now) :
    get false wp now m key = Except.ok (some v, m) := by
  rw [get]
  simp [h, ht]

theorem get_expired (wp : Bool) (now : Nat) (m : KeyValueStore K V) (key : K)
    (v : V) (t : Nat) (h : hmGet m key = some (v, some t)) (ht : t < now) :
    get false wp now m key
      = Except.map (fun p => (none, p.2)) (remove wp m key) := by
  rw [get]
  simp [h, ht]

end KeyValueStore

theorem get_expired_value_none (wp : Bool) (now : Nat)
    (m : KeyValueStore K V) (k : K) (v : V) (t : Nat)
    (h : hmGet m k = some (v, some t)) (ht : t < now) (r : Option V)
    (s : KeyValueStore K V)
    (h2 : KeyValueStore.get false wp now m k = Except.ok (r, s)) :
    r = none := by
  rw [KeyValueStore.get_expired wp now m k v t h ht] at h2
  cases hrem : KeyValueStore.remove wp m k with
  | error e =>
    rw [hrem] at h2
    exact absurd h2 (by simp [Except.map])
  | ok p =>
    rw [hrem] at h2
    simp only [Except.map, Except.ok.injEq, Prod.mk.injEq] at h2
    exact h2.1.symm

/-- C1: inserting a key with TTL `d` at time `t0`, a `get` before `t0 + d`
returns the inserted value; a `get` strictly after `t0 + d` returns
`Ok(None)`; and a `get` at any later time on the resulting store also
returns `Ok(None)` — the expired entry is never resurrected. -/
theorem claim_C1_ttl_expiry_no_resurrection
    (m : KeyValueStore K V) (hwf : WF m) (k : K) (v : V)
    (d t0 t1 t2 t3 : Nat) (hbefore : t1 < t0 + d) (hafter : t0 + d < t2) :
    ∃ r0 m1 m2,
      KeyValueStore.insert false t0 m k v (some d) = Except.ok (r0, m1) ∧
      KeyValueStore.get false false t1 m1 k = Except.ok (some v, m1) ∧
      KeyValueStore.get false false t2 m1 k = Except.ok (none, m2) ∧
      KeyValueStore.get false false t3 m2 k = Except.ok (none, m2) := by
  refine ⟨(hmGet m k).map Prod.fst, (hmInsert m k (v, some (t0 + d))).2,
    (hmRemove (hmInsert m k (v, some (t0 + d))).2 k).2,
    KeyValueStore.insert_ok t0 m k v (some d), ?_, ?_, ?_⟩
  · exact KeyValueStore.get_valid false t1 _ k v (t0 + d)
      (hmGet_hmInsert_self m k (v, some (t0 + d))) (by omega)
  · rw [KeyValueStore.get_expired false t2 _ k v (t0 + d)
      (hmGet_hmInsert_self m k (v, some (t0 + d))) hafter,
      KeyValueStore.remove_ok]
    rfl
  · exact KeyValueStore.get_absent false t3 _ k
      (hmGet_hmRemove_self _ k (WF_hmInsert m k (v, some (t0 + d)) hwf))

/-- Witness for C1: empty store over `Nat` keys and values, TTL 1 inserted
at time 0, reads at times 0, 2 and 3. -/
theorem claim_C1_witness :
    WF ([] : KeyValueStore Nat Nat) ∧
    (∃ r0 m1 m2,
      KeyValueStore.insert false 0 ([] : KeyValueStore Nat Nat) 0 1 (some 1)
        = Except.ok (r0, m1) ∧
      KeyValueStore.get false false 0 m1 0 = Except.ok (some 1, m1) ∧
      KeyValueStore.get false false 2 m1 0 = Except.ok (none, m2) ∧
      KeyValueStore.get false false 3 m2 0 = Except.ok (none, m2)) :=
  ⟨by simp [WF],
    claim_C1_ttl_expiry_no_resurrection ([] : KeyValueStore Nat Nat)
      (by simp [WF]) 0 1 1 0 0 2 3 (by decide) (by decide)⟩

/-- C2: inserting `v1` then `v2` for the same key with no TTL: the second
insert returns `Ok(Some v1)`, the stored entry becomes `(v2, none)` — the
old entry and its expiration metadata are unconditionally overwritten — and
a subsequent `get` returns `Ok(Some v2)`. -/
theorem claim_C2_overwrite_no_ttl
    (m : KeyValueStore K V) (k : K) (v1 v2 : V) (t0 t1 t2 : Nat) :
    ∃ r0 m1 m2,
      KeyValueStore.insert false t0 m k v1 none = Except.ok (r0, m1) ∧
      KeyValueStore.insert false t1 m1 k v2 none = Except.ok (some v1, m2) ∧
      hmGet m2 k = some (v2, none) ∧
      KeyValueStore.get false false t2 m2 k = Except.ok (some v2, m2) := by
  refine ⟨(hmGet m k).map Prod.fst, (hmInsert m k (v1, none)).2,
    (hmInsert (hmInsert m k (v1, none)).2 k (v2, none)).2,
    KeyValueStore.insert_ok t0 m k v1 none, ?_,
    hmGet_hmInsert_self _ k (v2, none), ?_⟩
  · rw [KeyValueStore.insert_ok t1 _ k v2 none,
      hmGet_hmInsert_self m k (v1, none)]
    rfl
  · exact KeyValueStore.get_noexpiry false t2 _ k v2
      (hmGet_hmInsert_self _ k (v2, none))

/-- C3: a key that is absent from the mapping gives `get` = `Ok(None)` — a
successful absent result, not an error (whatever the state of the write
lock, which this path never touches). -/
theorem claim_C3_absent_key_not_error
    (m : KeyValueStore K V) (k : K) (now : Nat) (wp : Bool)
    (habs : hmGet m k = none) :
    KeyValueStore.get false wp now m k = Except.ok (none, m) :=
  KeyValueStore.get_absent wp now m k habs

/-- Witness for C3: a key never inserted into the empty store. -/
theorem claim_C3_witness :
    hmGet ([] : KeyValueStore Nat Nat) 0 = none ∧
    KeyValueStore.get false false 5 ([] : KeyValueStore Nat Nat) 0
      = Except.ok (none, []) :=
  ⟨rfl, claim_C3_absent_key_not_error [] 0 5 false rfl⟩

/-- C4: when `get` observes an entry whose expiration has elapsed, it
invokes the removal path and returns `remove`'s result with the value
component replaced by `none`: whatever `remove` returned, the caller sees
`none`. -/
theorem claim_C4_eviction_returns_none
    (m : KeyValueStore K V) (k : K) (v : V) (t now : Nat) (wp : Bool)
    (hfound : hmGet m k = some (v, some t)) (hexp : t < now) :
    KeyValueStore.get false wp now m k
      = Except.map (fun p => (none, p.2)) (KeyValueStore.remove wp m k) ∧
    ∀ r s, KeyValueStore.get false wp now m k = Except.ok (r, s) →
      r = none :=
  ⟨KeyValueStore.get_expired wp now m k v t hfound hexp,
   fun r s h2 => get_expired_value_none wp now m k v t hfound hexp r s h2⟩

/-- Witness for C4: entry for key 0 expired at time 1, read at time 2. -/
theorem claim_C4_witness :
    KeyValueStore.get false false 2
        ([(0, (7, some 1))] : KeyValueStore Nat Nat) 0
      = Except.map (fun p => (none, p.2))
          (KeyValueStore.remove false
            ([(0, (7, some 1))] : KeyValueStore Nat Nat) 0) ∧
    ∀ r s, KeyValueStore.get false false 2
        ([(0, (7, some 1))] : KeyValueStore Nat Nat) 0 = Except.ok (r, s) →
      r = none :=
  claim_C4_eviction_returns_none [(0, (7, some 1))] 0 7 1 2 false rfl
    (by decide)

/-- C5: `remove` deletes whatever entry is physically present — including
one whose expiration has already elapsed, whose value is still returned —
returning its value (`none` when absent); afterwards the key is absent. -/
theorem claim_C5_remove_unconditional
    (m : KeyValueStore K V) (k : K) (hwf : WF m) :
    KeyValueStore.remove false m k
      = Except.ok ((hmGet m k).map Prod.fst, (hmRemove m k).2) ∧
    hmGet (hmRemove m k).2 k = none ∧
    (∀ v e, hmGet m k = some (v, e) →
      KeyValueStore.remove false m k
        = Except.ok (some v, (hmRemove m k).2)) := by
  refine ⟨KeyValueStore.remove_ok m k, hmGet_hmRemove_self m k hwf,
    fun v e h => ?_⟩
  rw [KeyValueStore.remove_ok m k, h]
  rfl

/-- Witness for C5: removing a physically present but already-expired entry
returns its value and leaves the key absent. -/
theorem claim_C5_witness :
    WF ([(0, (7, some 1))] : KeyValueStore Nat Nat) ∧
    KeyValueStore.remove false
        ([(0, (7, some 1))] : KeyValueStore Nat Nat) 0
      = Except.ok (some 7, ([] : KeyValueStore Nat Nat)) ∧
    hmGet (hmRemove ([(0, (7, some 1))] : KeyValueStore Nat Nat) 0).2 0
      = none := by
  have h := claim_C5_remove_unconditional
    ([(0, (7, some 1))] : KeyValueStore Nat Nat) 0 (by simp [WF])
  exact ⟨by simp [WF], h.2.2 7 (some 1) rfl, h.2.1⟩

/-- C6: exactly two error kinds exist, both lock-poisoning; a failed shared
(read) acquisition — `get`'s initial `read()` — yields `PoisonedReadLock`,
and a failed exclusive (write) acquisition — in `insert`, in `remove`, and
in the eviction path inside `get` — yields `PoisonedWriteLock`. -/
theorem claim_C6_error_taxonomy
    (m : KeyValueStore K V) (k : K) (v : V) (ttl : Option Nat) (now : Nat) :
    (∀ e : KeyValueStoreError,
      e = KeyValueStoreError.PoisonedReadLock ∨
      e = KeyValueStoreError.PoisonedWriteLock) ∧
    (∀ wp, KeyValueStore.get true wp now m k
      = Except.error KeyValueStoreError.PoisonedReadLock) ∧
    KeyValueStore.insert true now m k v ttl
      = Except.error KeyValueStoreError.PoisonedWriteLock ∧
    KeyValueStore.remove true m k
      = Except.error KeyValueStoreError.PoisonedWriteLock ∧
    (∀ w t, hmGet m k = some (w, some t) → t < now →
      KeyValueStore.get false true now m k
        = Except.error KeyValueStoreError.PoisonedWriteLock) := by
  refine ⟨fun e => ?_, fun wp => rfl, rfl, rfl, fun w t h ht => ?_⟩
  · cases e
    · exact Or.inl rfl
    · exact Or.inr rfl
  · rw [KeyValueStore.get_expired true now m k w t h ht]
    rfl

/-- Witness for C6: poisoned acquisitions at concrete inputs, including the
write acquisition inside the eviction path of `get`. -/
theorem claim_C6_witness :
    KeyValueStore.get true false 0 ([] : KeyValueStore Nat Nat) 0
      = Except.error KeyValueStoreError.PoisonedReadLock ∧
    KeyValueStore.insert true 0 ([] : KeyValueStore Nat Nat) 0 1 none
      = Except.error KeyValueStoreError.PoisonedWriteLock ∧
    KeyValueStore.remove true ([] : KeyValueStore Nat Nat) 0
      = Except.error KeyValueStoreError.PoisonedWriteLock ∧
    KeyValueStore.get false true 2
        ([(0, (7, some 1))] : KeyValueStore Nat Nat) 0
      = Except.error KeyValueStoreError.PoisonedWriteLock := by
  have h1 := claim_C6_error_taxonomy ([] : KeyValueStore Nat Nat) 0 1 none 0
  have h2 := claim_C6_error_taxonomy
    ([(0, (7, some 1))] : KeyValueStore Nat Nat) 0 7 none 2
  exact ⟨h1.2.1 false, h1.2.2.1, h1.2.2.2.1,
    h2.2.2.2.2 7 1 rfl (by decide)⟩

/-- C7: an insert with TTL `d` at wall-clock time `now` stores the absolute
expiration instant `now + d` in the entry, computed at insertion time. -/
theorem claim_C7_absolute_expiration
    (m : KeyValueStore K V) (k : K) (v : V) (d now : Nat) :
    ∃ r m1,
      KeyValueStore.insert false now m k v (some d) = Except.ok (r, m1) ∧
      hmGet m1 k = some (v, some (now + d)) :=
  ⟨(hmGet m k).map Prod.fst, (hmInsert m k (v, some (now + d))).2,
    KeyValueStore.insert_ok now m k v (some d),
    hmGet_hmInsert_self m k (v, some (now + d))⟩

/-- C8: frame property — `get` on an absent key, on an entry without
expiration, or on a non-expired entry returns without changing the mapping,
and `insert`/`remove` (so also the eviction step inside `get`, whose state
change is `remove`'s) on key `k` leave every other key's binding
unchanged. -/
theorem claim_C8_frame
    (m : KeyValueStore K V) (k k1 : K) (now : Nat) (wp : Bool) :
    (hmGet m k = none →
      KeyValueStore.get false wp now m k = Except.ok (none, m)) ∧
    (∀ v, hmGet m k = some (v, none) →
      KeyValueStore.get false wp now m k = Except.ok (some v, m)) ∧
    (∀ v t, hmGet m k = some (v, some t) → ¬ t < now →
      KeyValueStore.get false wp now m k = Except.ok (some v, m)) ∧
    (k1 ≠ k → ∀ e,
      hmGet (hmInsert m k e).2 k1 = hmGet m k1 ∧
      hmGet (hmRemove m k).2 k1 = hmGet m k1) :=
  ⟨fun h => KeyValueStore.get_absent wp now m k h,
   fun v h => KeyValueStore.get_noexpiry wp now m k v h,
   fun v t h ht => KeyValueStore.get_valid wp now m k v t h ht,
   fun hne e => ⟨hmGet_hmInsert_ne m k k1 e hne,
     hmGet_hmRemove_ne m k k1 hne⟩⟩

/-- Witness for C8: the three unchanged-`get` cases and the other-key frame,
each at a concrete store. -/
theorem claim_C8_witness :
    KeyValueStore.get false false 9 ([] : KeyValueStore Nat Nat) 0
      = Except.ok (none, []) ∧
    KeyValueStore.get false false 9
        ([(0, (7, none))] : KeyValueStore Nat Nat) 0
      = Except.ok (some 7, [(0, (7, none))]) ∧
    KeyValueStore.get false false 9
        ([(0, (7, some 9))] : KeyValueStore Nat Nat) 0
      = Except.ok (some 7, [(0, (7, some 9))]) ∧
    hmGet (hmInsert ([(1, (3, none))] : KeyValueStore Nat Nat) 0
        (7, none)).2 1
      = hmGet ([(1, (3, none))] : KeyValueStore Nat Nat) 1 ∧
    hmGet (hmRemove ([(1, (3, none))] : KeyValueStore Nat Nat) 0).2 1
      = hmGet ([(1, (3, none))] : KeyValueStore Nat Nat) 1 := by
  have h1 := claim_C8_frame ([] : KeyValueStore Nat Nat) 0 1 9 false
  have h2 := claim_C8_frame ([(0, (7, none))] : KeyValueStore Nat Nat)
    0 1 9 false
  have h3 := claim_C8_frame ([(0, (7, some 9))] : KeyValueStore Nat Nat)
    0 1 9 false
  have h4 := claim_C8_frame ([(1, (3, none))] : KeyValueStore Nat Nat)
    0 1 9 false
  exact ⟨h1.1 rfl, h2.2.1 7 rfl, h3.2.2.1 7 9 rfl (by decide),
    (h4.2.2.2 (by decide) (7, none)).1, (h4.2.2.2 (by decide) (7, none)).2⟩

/-- C9: all three operations return just the value with the expiration
metadata discarded: `insert` and `remove` return the old entry's value
component only, and a successful `get` returns either `none` or the value
component of the entry it found — never an expiration. -/
theorem claim_C9_uniform_return_shape
    (m : KeyValueStore K V) (k : K) (v : V) (d : Option Nat) (now : Nat) :
    Except.map Prod.fst (KeyValueStore.insert false now m k v d)
      = Except.ok ((hmGet m k).map Prod.fst) ∧
    Except.map Prod.fst (KeyValueStore.remove false m k)
      = Except.ok ((hmGet m k).map Prod.fst) ∧
    (∀ r s, KeyValueStore.get false false now m k = Except.ok (r, s) →
      r = none ∨ ∃ w e, hmGet m k = some (w, e) ∧ r = some w) := by
  refine ⟨by rw [KeyValueStore.insert_ok]; rfl,
    by rw [KeyValueStore.remove_ok]; rfl, fun r s h => ?_⟩
  cases hg : hmGet m k with
  | none =>
    rw [KeyValueStore.get_absent false now m k hg] at h
    injection h with h1
    exact Or.inl (congrArg Prod.fst h1).symm
  | some entry =>
    obtain ⟨w, eo⟩ := entry
    cases eo with
    | none =>
      rw [KeyValueStore.get_noexpiry false now m k w hg] at h
      injection h with h1
      exact Or.inr ⟨w, none, rfl, (congrArg Prod.fst h1).symm⟩
    | some t =>
      by_cases ht : t < now
      · exact Or.inl (get_expired_value_none false now m k w t hg ht r s h)
      · rw [KeyValueStore.get_valid false now m k w t hg ht] at h
        injection h with h1
        exact Or.inr ⟨w, some t, rfl, (congrArg Prod.fst h1).symm⟩

/-- Witness for C9 at concrete stores: an `insert` over an existing entry
returns only the old value, and a successful `get` yields the stored
entry's value component. -/
theorem claim_C9_witness :
    Except.map Prod.fst (KeyValueStore.insert false 0
        ([(0, (3, none))] : KeyValueStore Nat Nat) 0 5 none)
      = Except.ok (some 3) ∧
    ((some 5 : Option Nat) = none ∨ ∃ w e,
      hmGet ([(0, (5, none))] : KeyValueStore Nat Nat) 0 = some (w, e) ∧
      (some 5 : Option Nat) = some w) := by
  have h1 := claim_C9_uniform_return_shape
    ([(0, (3, none))] : KeyValueStore Nat Nat) 0 5 none 0
  have h2 := claim_C9_uniform_return_shape
    ([(0, (5, none))] : KeyValueStore Nat Nat) 0 5 none 0
  exact ⟨h1.1, h2.2.2 (some 5) [(0, (5, none))] rfl⟩

/-- C10: the expiration comparison in `get` is strict — an entry whose
stored instant equals the observed current time is still valid and its
value is returned with the mapping unchanged; eviction (an absent result)
happens only when the stored instant is strictly below `now`. -/
theorem claim_C10_strict_expiry_boundary
    (m : KeyValueStore K V) (k : K) (v : V) (t now : Nat) (wp : Bool) :
    (hmGet m k = some (v, some now) →
      KeyValueStore.get false wp now m k = Except.ok (some v, m)) ∧
    (hmGet m k = some (v, some t) → ¬ t < now →
      KeyValueStore.get false wp now m k = Except.ok (some v, m)) ∧
    (hmGet m k = some (v, some t) → t < now →
      ∀ r s, KeyValueStore.get false wp now m k = Except.ok (r, s) →
        r = none) :=
  ⟨fun h => KeyValueStore.get_valid wp now m k v now h (lt_irrefl now),
   fun h ht => KeyValueStore.get_valid wp now m k v t h ht,
   fun h ht r s h2 => get_expired_value_none wp now m k v t h ht r s h2⟩

/-- Witness for C10: expiration exactly at `now` keeps the value; a later
expiration keeps it too; a strictly earlier one gives an absent result. -/
theorem claim_C10_witness :
    KeyValueStore.get false false 9
        ([(0, (7, some 9))] : KeyValueStore Nat Nat) 0
      = Except.ok (some 7, [(0, (7, some 9))]) ∧
    KeyValueStore.get false false 9
        ([(0, (7, some 12))] : KeyValueStore Nat Nat) 0
      = Except.ok (some 7, [(0, (7, some 12))]) ∧
    (none : Option Nat) = none := by
  have h1 := claim_C10_strict_expiry_boundary
    ([(0, (7, some 9))] : KeyValueStore Nat Nat) 0 7 9 9 false
  have h2 := claim_C10_strict_expiry_boundary
    ([(0, (7, some 12))] : KeyValueStore Nat Nat) 0 7 12 9 false
  have h3 := claim_C10_strict_expiry_boundary
    ([(0, (7, some 1))] : KeyValueStore Nat Nat) 0 7 1 9 false
  exact ⟨h1.1 rfl, h2.2.1 rfl (by decide),
    h3.2.2 rfl (by decide) none ([] : KeyValueStore Nat Nat) rfl⟩
